import Mathlib

/-!
Verification development for the bavy-balls procedural track core
(`src/paths.rs`, `src/shapes.rs`, `src/half_cylinder.rs`).

Scalar model: the source computes in IEEE-754 binary32 (`f32`).  We model an
`f32` value as an exact rational together with the special values `nan`,
`+inf` and `-inf`.  Arithmetic is exact rational arithmetic with IEEE-style
propagation of the special values (`0/0 = nan`, `x + nan = nan`, ...).
Rounding error, signed zeros and subnormals are not modelled; no theorem in
this file depends on the rounded value of an inexact operation.
`sqrt`, `sin` and `cos` are irrational on most inputs, so they are modelled by
executable rational surrogates that are exact on the inputs the proofs
evaluate (perfect squares for `sqrt`, `0` and `nan` for `sin`/`cos`) and
NaN-faithful everywhere.
-/

/-- Model of an `f32` scalar: an exact rational, or one of the IEEE special
values NaN, positive infinity, negative infinity. -/
inductive FP where
  | fin (q : ℚ)
  | nan
  | inf
  | ninf
deriving DecidableEq, Repr

/-- IEEE-style addition on the scalar model: NaN propagates, opposite
infinities give NaN, exact rational addition otherwise. -/
def fpAdd : FP → FP → FP
  | .nan, _ => .nan
  | _, .nan => .nan
  | .inf, .ninf => .nan
  | .ninf, .inf => .nan
  | .inf, _ => .inf
  | _, .inf => .inf
  | .ninf, _ => .ninf
  | _, .ninf => .ninf
  | .fin a, .fin b => .fin (a + b)

/-- Negation on the scalar model. -/
def fpNeg : FP → FP
  | .nan => .nan
  | .inf => .ninf
  | .ninf => .inf
  | .fin a => .fin (-a)

/-- Subtraction on the scalar model, as `a + (-b)`. -/
def fpSub (a b : FP) : FP := fpAdd a (fpNeg b)

/-- IEEE-style multiplication on the scalar model: NaN propagates,
`±inf * 0 = nan`, exact rational multiplication otherwise. -/
def fpMul : FP → FP → FP
  | .nan, _ => .nan
  | _, .nan => .nan
  | .fin a, .fin b => .fin (a * b)
  | .inf, .fin b => if b = 0 then .nan else if 0 < b then .inf else .ninf
  | .fin a, .inf => if a = 0 then .nan else if 0 < a then .inf else .ninf
  | .ninf, .fin b => if b = 0 then .nan else if 0 < b then .ninf else .inf
  | .fin a, .ninf => if a = 0 then .nan else if 0 < a then .ninf else .inf
  | .inf, .inf => .inf
  | .inf, .ninf => .ninf
  | .ninf, .inf => .ninf
  | .ninf, .ninf => .inf

/-- IEEE-style division on the scalar model: NaN propagates, `0/0 = nan`,
nonzero/0 gives a signed infinity, finite/infinite gives 0 (the sign of zero
is not modelled), infinite/infinite gives NaN. -/
def fpDiv : FP → FP → FP
  | .nan, _ => .nan
  | _, .nan => .nan
  | .fin a, .fin b =>
    if b = 0 then
      if a = 0 then .nan else if 0 < a then .inf else .ninf
    else .fin (a / b)
  | .inf, .fin b => if 0 ≤ b then .inf else .ninf
  | .ninf, .fin b => if 0 ≤ b then .ninf else .inf
  | .fin _, .inf => .fin 0
  | .fin _, .ninf => .fin 0
  | .inf, .inf => .nan
  | .inf, .ninf => .nan
  | .ninf, .inf => .nan
  | .ninf, .ninf => .nan

/-- IEEE-style strict less-than: any comparison with NaN is false. -/
def fpLt : FP → FP → Bool
  | .nan, _ => false
  | _, .nan => false
  | .fin a, .fin b => decide (a < b)
  | .fin _, .inf => true
  | .fin _, .ninf => false
  | .inf, _ => false
  | .ninf, .ninf => false
  | .ninf, _ => true

/-- True exactly on finite (rational) values, mirroring `f32::is_finite`. -/
def fpIsFinite : FP → Bool
  | .fin _ => true
  | _ => false

/-- True exactly on the NaN value, mirroring `f32::is_nan`. -/
def fpIsNaN : FP → Bool
  | .nan => true
  | _ => false

instance : Add FP := ⟨fpAdd⟩
instance : Sub FP := ⟨fpSub⟩
instance : Neg FP := ⟨fpNeg⟩
instance : Mul FP := ⟨fpMul⟩
instance : OfNat FP 2 := ⟨.fin 2⟩

/-- Heron iteration for the integer square root, structurally recursive on a
fuel argument so that it reduces inside the kernel. -/
def isqrtIter (n : Nat) : Nat → Nat → Nat
  | 0, x => x
  | fuel + 1, x =>
    let y := (x + n / x) / 2
    if y < x then isqrtIter n fuel y else x

/-- Integer square root (floor), kernel-reducible. -/
def isqrt (n : Nat) : Nat :=
  if n ≤ 1 then n else isqrtIter n n n

/-- Rational surrogate for the square root: exact whenever the argument is the
square of a rational (the only case the proofs below evaluate), an
integer-square-root approximation otherwise. -/
def ratSqrt (q : ℚ) : ℚ :=
  let n := q.num.toNat
  let d := q.den
  let sn := isqrt n
  let sd := isqrt d
  if sn * sn = n ∧ sd * sd = d then (sn : ℚ) / (sd : ℚ)
  else (isqrt (n * d) : ℚ) / (d : ℚ)

/-- Square root on the scalar model: NaN on NaN and on negative inputs,
`+inf` on `+inf`, the rational surrogate on finite non-negatives. -/
def fpSqrt : FP → FP
  | .nan => .nan
  | .inf => .inf
  | .ninf => .nan
  | .fin q => if q < 0 then .nan else .fin (ratSqrt q)

/-- Sine on the scalar model: NaN on NaN/infinities as in IEEE, and a
truncated Taylor polynomial on finite values (exact at 0, the only finite
input whose value a proof below depends on). -/
def fpSin : FP → FP
  | .fin q => .fin (q - q ^ 3 / 6 + q ^ 5 / 120)
  | _ => .nan

/-- Cosine on the scalar model, same conventions as `fpSin` (exact at 0). -/
def fpCos : FP → FP
  | .fin q => .fin (1 - q ^ 2 / 2 + q ^ 4 / 24)
  | _ => .nan

/-- The `f32` value of `std::f32::consts::PI` (`0x40490FDB`), exactly. -/
def fpPi : FP := .fin (13176795 / 4194304)

/-- The `f32` value of `std::f32::consts::FRAC_PI_2` (`0x3FC90FDB`), exactly. -/
def fpFracPi2 : FP := .fin (13176795 / 8388608)

/-- The constant one half, used by glam's half-angle computations. -/
def fpHalfC : FP := .fin (1 / 2)

/-- A 3-component vector over an arbitrary scalar type, modelling
`glam::Vec3` (at `FP`) and exact rational vectors (at `ℚ`). -/
structure V3 (α : Type) where
  x : α
  y : α
  z : α
deriving DecidableEq, Repr

/-- A quaternion over an arbitrary scalar type, modelling `glam::Quat`
(components `x y z w`). -/
structure Q4 (α : Type) where
  x : α
  y : α
  z : α
  w : α
deriving DecidableEq, Repr

/-- Componentwise vector addition (`glam::Vec3::add`). -/
def v3add {α : Type} [Add α] (a b : V3 α) : V3 α :=
  ⟨a.x + b.x, a.y + b.y, a.z + b.z⟩

/-- Componentwise vector subtraction (`glam::Vec3::sub`). -/
def v3sub {α : Type} [Sub α] (a b : V3 α) : V3 α :=
  ⟨a.x - b.x, a.y - b.y, a.z - b.z⟩

/-- Componentwise vector negation (`glam::Vec3::neg`). -/
def v3neg {α : Type} [Neg α] (a : V3 α) : V3 α :=
  ⟨-a.x, -a.y, -a.z⟩

/-- Vector-by-scalar multiplication (`glam::Vec3::mul` by an `f32`). -/
def v3scale {α : Type} [Mul α] (a : V3 α) (s : α) : V3 α :=
  ⟨a.x * s, a.y * s, a.z * s⟩

/-- Dot product (`glam::Vec3::dot`). -/
def v3dot {α : Type} [Add α] [Mul α] (a b : V3 α) : α :=
  a.x * b.x + a.y * b.y + a.z * b.z

/-- Cross product (`glam::Vec3::cross`). -/
def v3cross {α : Type} [Mul α] [Sub α] (a b : V3 α) : V3 α :=
  ⟨a.y * b.z - a.z * b.y, a.z * b.x - a.x * b.z, a.x * b.y - a.y * b.x⟩

/-- Hamilton quaternion product, with the component formulas of
`glam::Quat::mul_quat`. -/
def quatMul {α : Type} [Add α] [Sub α] [Mul α] (a b : Q4 α) : Q4 α :=
  ⟨a.w * b.x + a.x * b.w + a.y * b.z - a.z * b.y,
   a.w * b.y + a.y * b.w + a.z * b.x - a.x * b.z,
   a.w * b.z + a.z * b.w + a.x * b.y - a.y * b.x,
   a.w * b.w - a.x * b.x - a.y * b.y - a.z * b.z⟩

/-- Rotation of a vector by a quaternion, with the formula of
`glam::Quat::mul_vec3`:
`v * (w*w - b.b) + b * (v.b * 2) + (b × v) * (w * 2)` where `b = (x,y,z)`. -/
def quatMulVec3 {α : Type} [Add α] [Sub α] [Mul α] [OfNat α 2] (q : Q4 α) (v : V3 α) : V3 α :=
  let b : V3 α := ⟨q.x, q.y, q.z⟩
  let b2 := v3dot b b
  v3add (v3add (v3scale v (q.w * q.w - b2)) (v3scale b (v3dot v b * 2)))
    (v3scale (v3cross b v) (q.w * 2))

/-- A quaternion from a rotation axis and the sine/cosine of the half angle:
`glam::Quat::from_axis_angle` after its `(angle * 0.5).sin_cos()` step. -/
def quatAxisHalf {α : Type} [Mul α] (axis : V3 α) (s c : α) : Q4 α :=
  ⟨axis.x * s, axis.y * s, axis.z * s, c⟩

/-- Model of `glam::Quat::from_axis_angle`. -/
def quatFromAxisAngle (axis : V3 FP) (angle : FP) : Q4 FP :=
  quatAxisHalf axis (fpSin (fpMul angle fpHalfC)) (fpCos (fpMul angle fpHalfC))

/-- Model of `glam::Quat::from_rotation_y` (yaw about the world vertical). -/
def quatFromRotationY (angle : FP) : Q4 FP :=
  ⟨.fin 0, fpSin (fpMul angle fpHalfC), .fin 0, fpCos (fpMul angle fpHalfC)⟩

/-- Model of `glam::Quat::from_rotation_x` (pitch about the lateral axis). -/
def quatFromRotationX (angle : FP) : Q4 FP :=
  ⟨fpSin (fpMul angle fpHalfC), .fin 0, .fin 0, fpCos (fpMul angle fpHalfC)⟩

/-- Model of `glam::Vec3::length_recip`: `1 / sqrt(v.v)`. -/
def v3lengthRecip (v : V3 FP) : FP :=
  fpDiv (.fin 1) (fpSqrt (v3dot v v))

/-- The zero vector (`glam::Vec3::ZERO`). -/
def v3zero : V3 FP := ⟨.fin 0, .fin 0, .fin 0⟩

/-- Model of `glam::Vec3::normalize_or_zero`: scale by the reciprocal length
when that is finite and positive, return the zero vector otherwise (this is
the degenerate fallback, reached for the zero vector and for NaN input). -/
def normalizeOrZero (v : V3 FP) : V3 FP :=
  let rcp := v3lengthRecip v
  if fpIsFinite rcp && fpLt (.fin 0) rcp then v3scale v rcp else v3zero

/-- The world up vector `Vec3::Y`. -/
def v3Y : V3 FP := ⟨.fin 0, .fin 1, .fin 0⟩

/-!
Random number generator.  The source uses `rand::rngs::SmallRng` (on 64-bit
targets: xoshiro256++ seeded through SplitMix64) as an external dependency.
We embed that generator directly: a four-word state, `seed_from_u64` via
SplitMix64, and the xoshiro256++ output/state-transition functions, all on
`Nat` reduced modulo `2^64`.  `gen_range` on an `f32` range is modelled as
the affine map of a 23-bit output fraction onto `[low, high)`; as in rand's
`UniformFloat::sample_single` it panics (here: returns `none`) unless
`low < high`, which also rejects NaN bounds.
-/

/-- Reduction modulo 2^64, the wrap-around of `u64` arithmetic. -/
def wrap64 (n : Nat) : Nat := n % 18446744073709551616

/-- Left rotation of a 64-bit word. -/
def rotl64 (x k : Nat) : Nat :=
  wrap64 (x <<< k) ||| (x >>> (64 - k))

/-- One step of the SplitMix64 generator, as in rand: returns the output word
and the advanced state. -/
def splitmixNext (state : Nat) : Nat × Nat :=
  let state := wrap64 (state + 0x9e3779b97f4a7c15)
  let z := state
  let z := wrap64 (Nat.xor z (z >>> 30) * 0xbf58476d1ce4e5b9)
  let z := wrap64 (Nat.xor z (z >>> 27) * 0x94d049bb133111eb)
  let z := Nat.xor z (z >>> 31)
  (z, state)

/-- The four-word state of `SmallRng` (xoshiro256++). -/
structure SmallRng where
  s0 : Nat
  s1 : Nat
  s2 : Nat
  s3 : Nat
deriving DecidableEq, Repr

/-- Model of `SmallRng::seed_from_u64`: fill the four state words from the
seed with SplitMix64. -/
def seedFromU64 (seed : Nat) : SmallRng :=
  let r0 := splitmixNext (wrap64 seed)
  let r1 := splitmixNext r0.2
  let r2 := splitmixNext r1.2
  let r3 := splitmixNext r2.2
  ⟨r0.1, r1.1, r2.1, r3.1⟩

/-- The xoshiro256++ output and state transition (`next_u64`). -/
def nextU64 (r : SmallRng) : Nat × SmallRng :=
  let result := wrap64 (rotl64 (wrap64 (r.s0 + r.s3)) 23 + r.s0)
  let t := wrap64 (r.s1 <<< 17)
  let s2 := Nat.xor r.s2 r.s0
  let s3 := Nat.xor r.s3 r.s1
  let s1 := Nat.xor r.s1 s2
  let s0 := Nat.xor r.s0 s3
  let s2 := Nat.xor s2 t
  let s3 := rotl64 s3 45
  (result, ⟨s0, s1, s2, s3⟩)

/-- Model of `rng.gen_range(low..high)` on `f32`: draws 23 mantissa bits from
the top of the next 64-bit output and maps the resulting fraction affinely
onto the range, `value * (high - low) + low`.  As in the source's sampler it
panics — modelled by `none` — unless `low < high` (so an empty range or a NaN
bound is a panic, not a sample). -/
def genRangeF32 (rng : SmallRng) (low high : FP) : Option (FP × SmallRng) :=
  if fpLt low high then
    let r := nextU64 rng
    let frac : ℚ := ((r.1 >>> 41 : Nat) : ℚ) / 8388608
    some (fpAdd (fpMul (.fin frac) (fpSub high low)) low, r.2)
  else none

/-- Model of `WormPathIterator` (`src/paths.rs`): an owned RNG state and the
two angle ranges, each a half-open interval given by its endpoints. -/
structure WormPathIterator where
  rng : SmallRng
  yaw_range : FP × FP
  pitch_range : FP × FP
deriving DecidableEq, Repr

/-- Model of `WormPathIterator::next` (`src/paths.rs` lines 15-21): draw a
yaw from `yaw_range` and a pitch from `pitch_range`, in that order, and
return `Quat::from_rotation_y(yaw) * Quat::from_rotation_x(pitch)` together
with the advanced iterator.  `none` models the `gen_range` panic on an empty
range; the iterator itself never returns Rust `None`. -/
def wormNext (it : WormPathIterator) : Option (Q4 FP × WormPathIterator) :=
  match genRangeF32 it.rng it.yaw_range.1 it.yaw_range.2 with
  | none => none
  | some yr =>
    match genRangeF32 yr.2 it.pitch_range.1 it.pitch_range.2 with
    | none => none
    | some pr =>
      some (quatMul (quatFromRotationY yr.1) (quatFromRotationX pr.1),
        ⟨pr.2, it.yaw_range, it.pitch_range⟩)

/-- The first `k` rotations of the worm path iterator, mirroring
`worm_path_iter.take(k)` driven by a `for` loop; `none` models a panic in
any of the `k` draws. -/
def wormTakeN : Nat → WormPathIterator → Option (List (Q4 FP))
  | 0, _ => some []
  | n + 1, it =>
    match wormNext it with
    | none => none
    | some r =>
      match wormTakeN n r.2 with
      | none => none
      | some qs => some (r.1 :: qs)

/-!
Mesh model.  `bevy::prelude::Mesh` stores vertex attributes in a map keyed by
attribute name; the two builders write exactly the position, normal and uv
attributes and a `u32` index list, and the collider extractor reads exactly
the position attribute and the index list.  We model the mesh as a record
with those attribute slots.  `VertexAttributeValues` has many variants in
bevy; only `Float32x3` is distinguished by the code under test, so the model
keeps `Float32x3`, `Float32x2` (used for uvs) and a stand-in for every other
variant.
-/

/-- Model of `bevy::render::mesh::VertexAttributeValues`; `otherFormat`
stands for every variant other than the two the code constructs. -/
inductive VertexAttributeValues where
  | float32x3 (values : List (V3 FP))
  | float32x2 (values : List (FP × FP))
  | otherFormat
deriving DecidableEq, Repr

/-- Model of `bevy::render::mesh::Indices`: 16-bit or 32-bit index lists
(each entry a machine integer, modelled as `Nat`). -/
inductive Indices where
  | u16 (values : List Nat)
  | u32 (values : List Nat)
deriving DecidableEq, Repr

/-- Model of `PrimitiveTopology`; the builders always use `TriangleList`. -/
inductive PrimitiveTopology where
  | triangleList
  | otherTopology
deriving DecidableEq, Repr

/-- Model of `bevy::prelude::Mesh`, restricted to the attribute slots the
code under test touches. -/
structure Mesh where
  topology : PrimitiveTopology
  attrPosition : Option VertexAttributeValues
  attrNormal : Option VertexAttributeValues
  attrUv0 : Option VertexAttributeValues
  indices : Option Indices
deriving DecidableEq, Repr

/-- Reduction modulo 2^32, the wrap-around of `u32` arithmetic (the index
buffers are built in `u32`). -/
def u32wrap (n : Nat) : Nat := n % 4294967296

/-- Model of `shapes::HalfCylinder` (the straight primitive).  The Rust field
`end` is a Lean keyword and is embedded as `endPoint`. -/
structure HalfCylinder where
  start : V3 FP
  endPoint : V3 FP
  radius : FP
  subdivisions : Nat
deriving DecidableEq, Repr

/-- The constant `START = (0, 0, -0.5)` of `shapes.rs`. -/
def hcSTART : V3 FP := ⟨.fin 0, .fin 0, .fin (-(1 / 2))⟩

/-- The constant `END = (0, 0, 0.5)` of `shapes.rs`. -/
def hcEND : V3 FP := ⟨.fin 0, .fin 0, .fin (1 / 2)⟩

/-- Model of `HalfCylinder::new`. -/
def HalfCylinder.new : HalfCylinder := ⟨hcSTART, hcEND, .fin (1 / 2), 10⟩

/-- The per-vertex ring offset shared by both builders: rotate `right` about
`forward` by the angle `PI * i / subdivisions` (note `i as f32` and
`subdivisions as f32`; for `subdivisions = 0` the angle is `0.0 / 0.0`,
which is NaN). -/
def ringOffset (forward right : V3 FP) (subdivisions i : Nat) : V3 FP :=
  quatMulVec3
    (quatFromAxisAngle forward
      (fpDiv (fpMul fpPi (.fin (i : ℚ))) (.fin (subdivisions : ℚ))))
    right

/-- The (position, normal) vertex pairs of the straight half-cylinder, in
emission order: for each `i` in `0..=subdivisions` one vertex at the start
ring and one at the end ring, the normal being the negated normalized
offset. -/
def straightVerts (shape : HalfCylinder) : List (V3 FP × V3 FP) :=
  let forward := normalizeOrZero (v3sub shape.endPoint shape.start)
  let right := v3scale (normalizeOrZero (v3cross v3Y (v3neg forward))) shape.radius
  (List.range (shape.subdivisions + 1)).flatMap fun i =>
    let offset := ringOffset forward right shape.subdivisions i
    let normal := v3neg (normalizeOrZero offset)
    [(v3add shape.start offset, normal), (v3add shape.endPoint offset, normal)]

/-- The `u32` index list of the straight half-cylinder: for each
`i in 0..subdivisions as u32`, with `offset = i * 2`, the two triangles
`(offset+2, offset, offset+1)` and `(offset+1, offset+3, offset+2)`.  All
arithmetic wraps as `u32`. -/
def straightIndices (subdivisions : Nat) : List Nat :=
  (List.range (u32wrap subdivisions)).flatMap fun i =>
    let offset := u32wrap (i * 2)
    [u32wrap (offset + 2), offset, u32wrap (offset + 1),
     u32wrap (offset + 1), u32wrap (offset + 3), u32wrap (offset + 2)]

/-- Model of `impl From<HalfCylinder> for Mesh` (`src/shapes.rs` lines
51-105; `src/half_cylinder.rs` lines 42-96 are the same construction):
positions, normals, a zero uv per vertex, and the `u32` triangle list. -/
def Mesh.ofHalfCylinder (shape : HalfCylinder) : Mesh :=
  let verts := straightVerts shape
  ⟨.triangleList,
   some (.float32x3 (verts.map Prod.fst)),
   some (.float32x3 (verts.map Prod.snd)),
   some (.float32x2 (verts.map fun _ => (.fin 0, .fin 0))),
   some (.u32 (straightIndices shape.subdivisions))⟩

/-- Model of `shapes::HalfCylinderPath`, the swept-mode configuration. -/
structure HalfCylinderPath where
  start : V3 FP
  forward : V3 FP
  radius : FP
  segment_length : FP
  n_segments : Nat
  subdivisions : Nat
  seed : Nat
  yaw_range : FP × FP
  pitch_range : FP × FP
deriving DecidableEq, Repr

/-- The constant `NEGATIVE_Z = (0, 0, -1)` of `shapes.rs`. -/
def hcNEGATIVE_Z : V3 FP := ⟨.fin 0, .fin 0, .fin (-1)⟩

/-- The default `YAW_RANGE` of `shapes.rs`,
`(-0.9 * FRAC_PI_2)..(0.9 * FRAC_PI_2)` (the `f32` literal `0.9` is
`15099494 / 2^24`, exactly). -/
def hcYAW_RANGE : FP × FP :=
  (fpMul (.fin (-(15099494 / 16777216))) fpFracPi2,
   fpMul (.fin (15099494 / 16777216)) fpFracPi2)

/-- The default `PITCH_RANGE` of `shapes.rs`,
`(-0.9 * FRAC_PI_2)..(-0.1 * FRAC_PI_2)` (the `f32` literal `0.1` is
`13421773 / 2^27`, exactly). -/
def hcPITCH_RANGE : FP × FP :=
  (fpMul (.fin (-(15099494 / 16777216))) fpFracPi2,
   fpMul (.fin (-(13421773 / 134217728))) fpFracPi2)

/-- Model of `HalfCylinderPath::new` (the `Default` configuration). -/
def HalfCylinderPath.new : HalfCylinderPath :=
  ⟨v3zero, hcNEGATIVE_Z, .fin (1 / 2), .fin 1, 100, 10, 1234, hcYAW_RANGE, hcPITCH_RANGE⟩

/-- One cross-section ring of the swept builder: `forward` is the rotated
forward of this ring, `right` the scaled lateral vector recomputed from it,
and each of the `subdivisions + 1` vertices pairs a position with its
negated-normalized-offset normal. -/
def pathRing (position forward : V3 FP) (radius : FP) (subdivisions : Nat) :
    List (V3 FP × V3 FP) :=
  let right := v3scale (normalizeOrZero (v3cross v3Y (v3neg forward))) radius
  (List.range (subdivisions + 1)).map fun i =>
    let offset := ringOffset forward right subdivisions i
    (v3add position offset, v3neg (normalizeOrZero offset))

/-- The per-rotation loop of the swept builder.  Note the source shadows
`forward` inside the loop body: every ring's forward is `rotation * forward0`
applied to the configuration's original forward, while `position`
accumulates `forward * segment_length` after each ring is emitted. -/
def pathRings (forward0 : V3 FP) (radius segment_length : FP) (subdivisions : Nat) :
    V3 FP → List (Q4 FP) → List (List (V3 FP × V3 FP))
  | _, [] => []
  | position, rot :: rots =>
    let forward := quatMulVec3 rot forward0
    pathRing position forward radius subdivisions ::
      pathRings forward0 radius segment_length subdivisions
        (v3add position (v3scale forward segment_length)) rots

/-- The `u32` index list of the swept builder (`src/shapes.rs` lines
190-205): with `segment_vertex_count = subdivisions as u32 + 1`, for each
segment `i` and column `j` the triangles `(offset+1, offset, offset+svc)`
and `(offset+svc, offset+svc+1, offset+1)`.  All arithmetic and both loop
bounds are `u32`. -/
def pathIndices (n_segments subdivisions : Nat) : List Nat :=
  let svc := u32wrap (u32wrap subdivisions + 1)
  (List.range (u32wrap n_segments)).flatMap fun i =>
    let segment_offset := u32wrap (svc * i)
    (List.range (u32wrap subdivisions)).flatMap fun j =>
      let offset := u32wrap (segment_offset + j)
      [u32wrap (offset + 1), offset, u32wrap (offset + svc),
       u32wrap (offset + svc), u32wrap (u32wrap (offset + svc) + 1),
       u32wrap (offset + 1)]

/-- Model of `impl From<HalfCylinderPath> for Mesh` (`src/shapes.rs` lines
148-215): draw `n_segments + 1` rotations from a `WormPathIterator` seeded
with `SmallRng::seed_from_u64(seed)`, emit one ring per rotation, then the
stitched `u32` triangle list.  The Rust `From` is total; `none` here models
the `gen_range` panic, which is reachable only for an empty (or NaN) angle
range. -/
def Mesh.ofHalfCylinderPath (shape : HalfCylinderPath) : Option Mesh :=
  match wormTakeN (shape.n_segments + 1)
      ⟨seedFromU64 shape.seed, shape.yaw_range, shape.pitch_range⟩ with
  | none => none
  | some rots =>
    let verts := (pathRings shape.forward shape.radius shape.segment_length
      shape.subdivisions shape.start rots).flatMap id
    some ⟨.triangleList,
      some (.float32x3 (verts.map Prod.fst)),
      some (.float32x3 (verts.map Prod.snd)),
      some (.float32x2 (verts.map fun _ => (.fin 0, .fin 0))),
      some (.u32 (pathIndices shape.n_segments shape.subdivisions))⟩

/-- Model of `bevy_rapier3d`'s `ColliderShape::trimesh` payload: a vertex
list and a triangle list of index triples. -/
structure ColliderShape where
  vertices : List (V3 FP)
  triangles : List (Nat × Nat × Nat)
deriving DecidableEq, Repr

/-- Model of `indices.chunks_exact(3)` followed by `[tri[0], tri[1], tri[2]]`:
group the flat list into triples, dropping a trailing remainder of fewer
than three entries. -/
def chunksExact3 : List Nat → List (Nat × Nat × Nat)
  | a :: b :: c :: rest => (a, b, c) :: chunksExact3 rest
  | _ => []

/-- Model of `shapes::mesh_to_collider_shape` (`src/shapes.rs` lines
217-237): requires the position attribute to be present and `Float32x3` and
the indices to be present and `U32`, returning `None` otherwise; the vertex
list is the position list read in order (`Point3::from_slice` is the
identity on the stored triple) and the triangles are the exact triples of
the flat index list. -/
def mesh_to_collider_shape (mesh : Mesh) : Option ColliderShape :=
  match mesh.attrPosition with
  | some (.float32x3 positions) =>
    match mesh.indices with
    | some (.u32 idx) => some ⟨positions, chunksExact3 idx⟩
    | _ => none
  | _ => none

/-- The number of vertices stored in the mesh's position attribute (0 when
the attribute is absent or not `Float32x3`). -/
def meshPositionCount (m : Mesh) : Nat :=
  match m.attrPosition with
  | some (.float32x3 ps) => ps.length
  | _ => 0

/-- The flat triangle-index list of a mesh (empty when absent; the builders
always store `U32` indices). -/
def meshIndexList (m : Mesh) : List Nat :=
  match m.indices with
  | some (.u32 l) => l
  | some (.u16 l) => l
  | none => []

/-- Whether the mesh's position attribute is present and stored as
3-component floating point. -/
def hasFloat32x3Positions (m : Mesh) : Bool :=
  match m.attrPosition with
  | some (.float32x3 _) => true
  | _ => false

/-- Whether the mesh's indices are present and in the flat `u32`
triangle-list layout the extractor accepts. -/
def hasU32Indices (m : Mesh) : Bool :=
  match m.indices with
  | some (.u32 _) => true
  | _ => false

/-- Flatten a triangle list back to a flat index list. -/
def flattenTriples (l : List (Nat × Nat × Nat)) : List Nat :=
  l.flatMap fun t => [t.1, t.2.1, t.2.2]

/-- Whether any component of the vector is NaN. -/
def v3HasNaN (v : V3 FP) : Bool :=
  fpIsNaN v.x || fpIsNaN v.y || fpIsNaN v.z

/-- Whether some stored vertex position of the mesh has a NaN component. -/
def meshPositionsHaveNaN (m : Mesh) : Bool :=
  match m.attrPosition with
  | some (.float32x3 ps) => ps.any v3HasNaN
  | _ => false

/-- Whether a mesh construction returned a mesh (did not fail) whose
positions contain NaN. -/
def succeedsWithNaN : Option Mesh → Bool
  | some m => meshPositionsHaveNaN m
  | none => false

/-- A concrete swept configuration with `subdivisions = 0` (and otherwise
valid parameters: non-empty angle ranges, one ring). -/
def c5cfg : HalfCylinderPath :=
  ⟨v3zero, hcNEGATIVE_Z, .fin (1 / 2), .fin 1, 0, 0, 1234, (.fin 0, .fin 1), (.fin 0, .fin 1)⟩

/-- A concrete invalid configuration: zero subdivisions and an empty yaw
range `1..0`. -/
def c8cfg : HalfCylinderPath :=
  ⟨v3zero, hcNEGATIVE_Z, .fin (1 / 2), .fin 1, 100, 0, 1234, (.fin 1, .fin 0), (.fin 0, .fin 1)⟩

/-- Concrete scenario A of the spec: the straight half-cylinder with radius
0.5, subdivisions 10, start `(0,0,-0.5)`, end `(0,0,0.5)`. -/
def scenarioA : HalfCylinder :=
  ⟨⟨.fin 0, .fin 0, .fin (-(1 / 2))⟩, ⟨.fin 0, .fin 0, .fin (1 / 2)⟩, .fin (1 / 2), 10⟩

/-- A concrete mesh with `Float32x3` positions and a `u32` index list whose
length is not a multiple of three. -/
def c3mesh : Mesh :=
  ⟨.triangleList, some (.float32x3 [v3zero, v3Y, hcEND]), none, none, some (.u32 [0, 1, 2, 2])⟩

/-- A concrete mesh whose indices are stored in 16-bit format but form a
valid in-bounds flat triangle list. -/
def c10mesh : Mesh :=
  ⟨.triangleList, some (.float32x3 [v3zero, v3Y, hcEND]), none, none, some (.u16 [0, 1, 2])⟩

/-- A concrete mesh with valid positions but no index buffer at all. -/
def c4mesh : Mesh :=
  ⟨.triangleList, some (.float32x3 [v3zero]), none, none, none⟩

theorem fpAdd_nan_left (x : FP) : fpAdd .nan x = .nan := by
  cases x <;> rfl

theorem fpAdd_nan_right (x : FP) : fpAdd x .nan = .nan := by
  cases x <;> rfl

theorem fpMul_nan_left (x : FP) : fpMul .nan x = .nan := by
  cases x <;> rfl

theorem fpMul_nan_right (x : FP) : fpMul x .nan = .nan := by
  cases x <;> rfl

theorem fpSub_nan_left (x : FP) : fpSub .nan x = .nan := by
  cases x <;> rfl

theorem fpSub_nan_right (x : FP) : fpSub x .nan = .nan := by
  cases x <;> rfl

theorem fpSin_nan : fpSin .nan = .nan := rfl

theorem fpCos_nan : fpCos .nan = .nan := rfl

theorem fpHAdd_def (a b : FP) : a + b = fpAdd a b := rfl

theorem fpHSub_def (a b : FP) : a - b = fpSub a b := rfl

theorem fpHMul_def (a b : FP) : a * b = fpMul a b := rfl

theorem fpHNeg_def (a : FP) : -a = fpNeg a := rfl

theorem fpTwo_def : (2 : FP) = .fin 2 := rfl

/-- A successful draw: when the range is non-empty the sampler returns a
value and the advanced generator state. -/
theorem genRangeF32_isSome (rng : SmallRng) (low high : FP)
    (h : fpLt low high = true) :
    ∃ v rng2, genRangeF32 rng low high = some (v, rng2) := by
  unfold genRangeF32
  rw [h]
  exact ⟨_, _, rfl⟩

/-- A panicking draw: an empty (or NaN) range makes `gen_range` panic,
modelled as `none`. -/
theorem genRangeF32_none (rng : SmallRng) (low high : FP)
    (h : fpLt low high = false) :
    genRangeF32 rng low high = none := by
  simp [genRangeF32, h]

/-- With non-empty ranges, `next` always yields a composed yaw-then-pitch
rotation, and the successor iterator keeps the same ranges. -/
theorem wormNext_some (it : WormPathIterator)
    (hy : fpLt it.yaw_range.1 it.yaw_range.2 = true)
    (hp : fpLt it.pitch_range.1 it.pitch_range.2 = true) :
    ∃ yaw pitch rng2,
      wormNext it = some (quatMul (quatFromRotationY yaw) (quatFromRotationX pitch),
        ⟨rng2, it.yaw_range, it.pitch_range⟩) := by
  obtain ⟨vy, r1, h1⟩ := genRangeF32_isSome it.rng it.yaw_range.1 it.yaw_range.2 hy
  obtain ⟨vp, r2, h2⟩ := genRangeF32_isSome r1 it.pitch_range.1 it.pitch_range.2 hp
  exact ⟨vy, vp, r2, by simp [wormNext, h1, h2]⟩

/-- With non-empty ranges, taking `k` rotations always succeeds and yields
exactly `k` rotations. -/
theorem wormTakeN_some (y1 y2 p1 p2 : FP)
    (hy : fpLt y1 y2 = true) (hp : fpLt p1 p2 = true) :
    ∀ (k : Nat) (rng : SmallRng),
      ∃ l, wormTakeN k ⟨rng, (y1, y2), (p1, p2)⟩ = some l ∧ l.length = k
  | 0, _ => ⟨[], rfl, rfl⟩
  | k + 1, rng => by
    obtain ⟨yaw, pitch, rng2, hnext⟩ :=
      wormNext_some ⟨rng, (y1, y2), (p1, p2)⟩ hy hp
    obtain ⟨l, hl, hlen⟩ := wormTakeN_some y1 y2 p1 p2 hy hp k rng2
    refine ⟨quatMul (quatFromRotationY yaw) (quatFromRotationX pitch) :: l, ?_, by simp [hlen]⟩
    simp only [wormTakeN, hnext, hl]

/-- An empty yaw range panics on the very first draw. -/
theorem wormTakeN_none_of_empty_yaw (it : WormPathIterator)
    (h : fpLt it.yaw_range.1 it.yaw_range.2 = false) (k : Nat) :
    wormTakeN (k + 1) it = none := by
  simp [wormTakeN, wormNext, genRangeF32_none it.rng it.yaw_range.1 it.yaw_range.2 h]

/-- The swept builder panics (never returns a mesh) when the yaw range is
empty: the failure surfaces at the first random draw, not at construction. -/
theorem pathMesh_none_of_empty_yaw (cfg : HalfCylinderPath)
    (h : fpLt cfg.yaw_range.1 cfg.yaw_range.2 = false) :
    Mesh.ofHalfCylinderPath cfg = none := by
  unfold Mesh.ofHalfCylinderPath
  rw [wormTakeN_none_of_empty_yaw _ h]

/-- Length of a `flatMap` over `List.range` when every block has the same
length. -/
theorem length_flatMap_range_const {β : Type} (f : Nat → List β) (c : Nat)
    (h : ∀ i, (f i).length = c) : ∀ n, ((List.range n).flatMap f).length = n * c
  | 0 => by simp
  | n + 1 => by
    rw [List.range_succ, List.flatMap_append, List.length_append,
      length_flatMap_range_const f c h n]
    simp [h, Nat.succ_mul]

theorem pathRing_length (position forward : V3 FP) (radius : FP) (subdivisions : Nat) :
    (pathRing position forward radius subdivisions).length = subdivisions + 1 := by
  simp [pathRing]

/-- Each drawn rotation contributes exactly one ring of `subdivisions + 1`
vertices. -/
theorem pathRings_flat_length (forward0 : V3 FP) (radius segment_length : FP)
    (subdivisions : Nat) :
    ∀ (rots : List (Q4 FP)) (position : V3 FP),
      ((pathRings forward0 radius segment_length subdivisions position rots).flatMap
        id).length = rots.length * (subdivisions + 1)
  | [], _ => by simp [pathRings]
  | rot :: rots, position => by
    rw [pathRings, List.flatMap_cons]
    simp only [id, List.length_append, pathRing_length, List.length_cons,
      pathRings_flat_length forward0 radius segment_length subdivisions rots]
    ring

theorem straightVerts_length (shape : HalfCylinder) :
    (straightVerts shape).length = (shape.subdivisions + 1) * 2 := by
  unfold straightVerts
  apply length_flatMap_range_const
  intro i
  rfl

theorem straightIndices_length (subdivisions : Nat) :
    (straightIndices subdivisions).length = u32wrap subdivisions * 6 := by
  unfold straightIndices
  apply length_flatMap_range_const
  intro i
  rfl

theorem chunksExact3_length : ∀ l : List Nat, (chunksExact3 l).length = l.length / 3
  | [] => by simp [chunksExact3]
  | [_] => by simp [chunksExact3]
  | [_, _] => by simp [chunksExact3]
  | _ :: _ :: _ :: t => by
    rw [chunksExact3, List.length_cons, chunksExact3_length t]
    simp [List.length_cons]
    omega

/-- Flattening the extracted triangles recovers the index list truncated to
a multiple of three: the trailing partial triangle is dropped. -/
theorem chunksExact3_flatten :
    ∀ l : List Nat, flattenTriples (chunksExact3 l) = l.take (3 * (l.length / 3))
  | [] => by simp [chunksExact3, flattenTriples]
  | [_] => by simp [chunksExact3, flattenTriples]
  | [_, _] => by simp [chunksExact3, flattenTriples]
  | a :: b :: c :: t => by
    rw [chunksExact3]
    show a :: b :: c :: flattenTriples (chunksExact3 t) = _
    rw [chunksExact3_flatten t]
    have h3 : 3 * ((a :: b :: c :: t).length / 3) = 3 * (t.length / 3) + 3 := by
      simp [List.length_cons]
      omega
    rw [h3]
    rfl

/-- Every index the swept builder emits is below the vertex count
`(subdivisions + 1) * (n_segments + 1)`.  When the vertex count fits in
`u32` no wrap occurs and the raw stitching values are bounded by the vertex
count; when it does not, every emitted `u32` is below `2^32` and a fortiori
below the vertex count. -/
theorem pathIndices_mem_lt (n_segments subdivisions : Nat) :
    ∀ n ∈ pathIndices n_segments subdivisions,
      n < (subdivisions + 1) * (n_segments + 1) := by
  intro n hn
  simp only [pathIndices, List.mem_flatMap, List.mem_range, List.mem_cons,
    List.not_mem_nil, or_false] at hn
  obtain ⟨i, hi, j, hj, hmem⟩ := hn
  by_cases hbig : (subdivisions + 1) * (n_segments + 1) ≤ 4294967296
  · -- no overflow: every raw value is below the vertex count, so below 2^32
    have hi2 : i < n_segments := lt_of_lt_of_le hi (Nat.mod_le _ _)
    have hj2 : j < subdivisions := lt_of_lt_of_le hj (Nat.mod_le _ _)
    have hS2 : (subdivisions + 1) * 2 ≤ 4294967296 :=
      le_trans (Nat.mul_le_mul_left _ (by omega)) hbig
    have hwsub : u32wrap subdivisions = subdivisions :=
      Nat.mod_eq_of_lt (by unfold u32wrap at *; omega)
    have hsvc : u32wrap (u32wrap subdivisions + 1) = subdivisions + 1 := by
      rw [hwsub]; exact Nat.mod_eq_of_lt (by omega)
    have hkey : (subdivisions + 1) * i + j + (subdivisions + 1) + 2 ≤
        (subdivisions + 1) * (n_segments + 1) := by
      have hmul : (subdivisions + 1) * (i + 2) ≤ (subdivisions + 1) * (n_segments + 1) :=
        Nat.mul_le_mul_left _ (by omega)
      nlinarith [hmul]
    rw [hsvc] at hmem
    have hX : (subdivisions + 1) * i + j + (subdivisions + 1) + 2 ≤ 4294967296 :=
      le_trans hkey hbig
    have hso : u32wrap ((subdivisions + 1) * i) = (subdivisions + 1) * i :=
      Nat.mod_eq_of_lt (by linarith)
    rw [hso] at hmem
    have hoff : u32wrap ((subdivisions + 1) * i + j) = (subdivisions + 1) * i + j :=
      Nat.mod_eq_of_lt (by linarith)
    rw [hoff] at hmem
    have e1 : u32wrap ((subdivisions + 1) * i + j + 1) = (subdivisions + 1) * i + j + 1 :=
      Nat.mod_eq_of_lt (by linarith)
    have e2 : u32wrap ((subdivisions + 1) * i + j + (subdivisions + 1))
        = (subdivisions + 1) * i + j + (subdivisions + 1) :=
      Nat.mod_eq_of_lt (by linarith)
    rw [e1, e2] at hmem
    have e3 : u32wrap ((subdivisions + 1) * i + j + (subdivisions + 1) + 1)
        = (subdivisions + 1) * i + j + (subdivisions + 1) + 1 :=
      Nat.mod_eq_of_lt (by linarith)
    rw [e3] at hmem
    rcases hmem with h | h | h | h | h | h <;> subst h <;> linarith
  · -- overflow regime: every emitted value is a `u32`, hence below 2^32
    have hlt : n < 4294967296 := by
      rcases hmem with h | h | h | h | h | h <;> subst h <;>
        exact Nat.mod_lt _ (by norm_num)
    omega

theorem quatFromAxisAngle_nan (axis : V3 FP) :
    quatFromAxisAngle axis .nan = ⟨.nan, .nan, .nan, .nan⟩ := by
  simp [quatFromAxisAngle, quatAxisHalf, fpMul_nan_left, fpSin, fpCos,
    fpHMul_def, fpMul_nan_right]

theorem quatMulVec3_nan (v : V3 FP) :
    quatMulVec3 (⟨.nan, .nan, .nan, .nan⟩ : Q4 FP) v = ⟨.nan, .nan, .nan⟩ := by
  simp [quatMulVec3, v3dot, v3cross, v3scale, v3add, fpHMul_def, fpHAdd_def,
    fpHSub_def, fpMul_nan_left, fpMul_nan_right, fpAdd_nan_left, fpAdd_nan_right,
    fpSub_nan_left, fpSub_nan_right]

theorem v3add_nan_right (p : V3 FP) :
    v3add p ⟨.nan, .nan, .nan⟩ = ⟨.nan, .nan, .nan⟩ := by
  simp [v3add, fpHAdd_def, fpAdd_nan_right]

/-- With `subdivisions = 0` the per-vertex angle is `PI * 0 / 0 = 0/0`,
which is NaN, and the ring offset is then NaN in every component. -/
theorem ringOffset_zero (forward right : V3 FP) :
    ringOffset forward right 0 0 = ⟨.nan, .nan, .nan⟩ := by
  have hangle :
      fpDiv (fpMul fpPi (.fin ((0 : Nat) : ℚ))) (.fin ((0 : Nat) : ℚ)) = .nan := by
    simp [fpPi, fpMul, fpDiv]
  unfold ringOffset
  rw [hangle, quatFromAxisAngle_nan, quatMulVec3_nan]

/-- The single-vertex ring emitted with `subdivisions = 0` has an all-NaN
position regardless of the current position, forward and radius. -/
theorem pathRing_zero_positions (position forward : V3 FP) (radius : FP) :
    (pathRing position forward radius 0).map Prod.fst = [⟨.nan, .nan, .nan⟩] := by
  have h1 : List.range (0 + 1) = [0] := rfl
  simp only [pathRing, h1, List.map_cons, List.map_nil]
  rw [ringOffset_zero, v3add_nan_right]

/-- Shared NaN result: with `subdivisions = 0` and non-empty angle ranges
the swept builder does not fail; it returns a mesh whose positions contain
NaN. -/
theorem pathMesh_nan_of_zero_subdivisions (cfg : HalfCylinderPath)
    (hsub : cfg.subdivisions = 0)
    (hy : fpLt cfg.yaw_range.1 cfg.yaw_range.2 = true)
    (hp : fpLt cfg.pitch_range.1 cfg.pitch_range.2 = true) :
    ∃ m, Mesh.ofHalfCylinderPath cfg = some m ∧ meshPositionsHaveNaN m = true := by
  obtain ⟨l, hl, hlen⟩ := wormTakeN_some cfg.yaw_range.1 cfg.yaw_range.2
    cfg.pitch_range.1 cfg.pitch_range.2 hy hp (cfg.n_segments + 1) (seedFromU64 cfg.seed)
  have hl2 : wormTakeN (cfg.n_segments + 1)
      ⟨seedFromU64 cfg.seed, cfg.yaw_range, cfg.pitch_range⟩ = some l := hl
  cases l with
  | nil => simp at hlen
  | cons r rest =>
    unfold Mesh.ofHalfCylinderPath
    rw [hl2]
    refine ⟨_, rfl, ?_⟩
    simp only [meshPositionsHaveNaN, hsub, pathRings, List.flatMap_cons,
      List.map_append, List.any_append, id]
    rw [pathRing_zero_positions]
    simp [v3HasNaN, fpIsNaN]

/-- C1: two path generators constructed with the same seed and the same
angle ranges produce identical rotation sequences for the first `k` draws,
for every `k`, and two swept-tube mesh builds from identical configurations
(seed included) produce identical stored vertex positions.  Generation is a
pure function of seed and ranges: there is no other state. -/
theorem c1_deterministic_generation (s1 s2 : Nat) (yr1 yr2 pr1 pr2 : FP × FP)
    (k : Nat) (cfg1 cfg2 : HalfCylinderPath)
    (hs : s1 = s2) (hy : yr1 = yr2) (hp : pr1 = pr2) (hcfg : cfg1 = cfg2) :
    wormTakeN k ⟨seedFromU64 s1, yr1, pr1⟩ = wormTakeN k ⟨seedFromU64 s2, yr2, pr2⟩
      ∧ (Mesh.ofHalfCylinderPath cfg1).map Mesh.attrPosition
          = (Mesh.ofHalfCylinderPath cfg2).map Mesh.attrPosition := by
  subst hs
  subst hy
  subst hp
  subst hcfg
  exact ⟨rfl, rfl⟩

/-- Witness for C1 at seed 4321, the default ranges, `k = 5` and the default
swept configuration. -/
theorem c1_deterministic_generation_witness :
    wormTakeN 5 ⟨seedFromU64 4321, hcYAW_RANGE, hcPITCH_RANGE⟩
        = wormTakeN 5 ⟨seedFromU64 4321, hcYAW_RANGE, hcPITCH_RANGE⟩
      ∧ (Mesh.ofHalfCylinderPath HalfCylinderPath.new).map Mesh.attrPosition
          = (Mesh.ofHalfCylinderPath HalfCylinderPath.new).map Mesh.attrPosition :=
  c1_deterministic_generation 4321 4321 hcYAW_RANGE hcYAW_RANGE hcPITCH_RANGE hcPITCH_RANGE
    5 HalfCylinderPath.new HalfCylinderPath.new rfl rfl rfl rfl

/-- C3: on a mesh with `Float32x3` positions and a flat `u32` index list of
length `L`, the extractor succeeds with exactly `L / 3` triangles, the
trailing partial triangle dropped by truncation, and a vertex list equal to
the stored positions in order (no re-ordering, no deduplication). -/
theorem c3_collider_roundtrip (m : Mesh) (ps : List (V3 FP)) (idx : List Nat)
    (hp : m.attrPosition = some (.float32x3 ps))
    (hi : m.indices = some (.u32 idx)) :
    ∃ cs, mesh_to_collider_shape m = some cs
      ∧ cs.vertices = ps
      ∧ cs.triangles.length = idx.length / 3
      ∧ flattenTriples cs.triangles = idx.take (3 * (idx.length / 3)) := by
  refine ⟨⟨ps, chunksExact3 idx⟩, ?_, rfl, chunksExact3_length idx, chunksExact3_flatten idx⟩
  unfold mesh_to_collider_shape
  rw [hp, hi]

/-- Witness for C3 on a concrete mesh with three vertices and four indices
(one whole triangle, one trailing partial index). -/
theorem c3_collider_roundtrip_witness :
    ∃ cs, mesh_to_collider_shape c3mesh = some cs
      ∧ cs.vertices = [v3zero, v3Y, hcEND]
      ∧ cs.triangles.length = [0, 1, 2, 2].length / 3
      ∧ flattenTriples cs.triangles = [0, 1, 2, 2].take (3 * ([0, 1, 2, 2].length / 3)) :=
  c3_collider_roundtrip c3mesh [v3zero, v3Y, hcEND] [0, 1, 2, 2] rfl rfl

/-- C4: the extractor returns `none` exactly when the position attribute is
absent or not 3-component floating point, or the indices are absent or not
the flat `u32` triangle-list layout; in particular a mesh with no index
buffer yields `none`, never an empty triangle list presented as success. -/
theorem c4_unsupported_mesh (m : Mesh) :
    (mesh_to_collider_shape m = none ↔
      hasFloat32x3Positions m = false ∨ hasU32Indices m = false)
    ∧ (m.indices = none → mesh_to_collider_shape m = none) := by
  obtain ⟨t, pos, nrm, uv, idx⟩ := m
  rcases pos with _ | (ps | uvs | _) <;>
    rcases idx with _ | (l16 | l32) <;>
      simp [mesh_to_collider_shape, hasFloat32x3Positions, hasU32Indices]

/-- Witness for C4 at a concrete mesh with valid positions and no index
buffer. -/
theorem c4_unsupported_mesh_witness :
    (mesh_to_collider_shape c4mesh = none ↔
      hasFloat32x3Positions c4mesh = false ∨ hasU32Indices c4mesh = false)
    ∧ (c4mesh.indices = none → mesh_to_collider_shape c4mesh = none) :=
  c4_unsupported_mesh c4mesh

/-- C9: the straight half-cylinder with radius 0.5, subdivisions 10, start
`(0,0,-0.5)` and end `(0,0,0.5)` has exactly 22 vertices and exactly 60
triangle indices. -/
theorem c9_scenario_a :
    meshPositionCount (Mesh.ofHalfCylinder scenarioA) = 22
      ∧ (meshIndexList (Mesh.ofHalfCylinder scenarioA)).length = 60 := by
  constructor
  · show ((straightVerts scenarioA).map Prod.fst).length = 22
    rw [List.length_map, straightVerts_length]
    rfl
  · show (straightIndices scenarioA.subdivisions).length = 60
    rw [straightIndices_length]
    rfl

/-- C10: a mesh whose indices are stored in 16-bit format is rejected by
the extractor even when those indices form a valid, in-bounds flat triangle
list; only `u32` indices are accepted. -/
theorem c10_u16_indices_rejected (m : Mesh) (ps : List (V3 FP)) (l : List Nat)
    (hp : m.attrPosition = some (.float32x3 ps))
    (hi : m.indices = some (.u16 l))
    (hlen : l.length % 3 = 0)
    (hbound : ∀ i ∈ l, i < ps.length) :
    mesh_to_collider_shape m = none := by
  unfold mesh_to_collider_shape
  rw [hp, hi]

/-- Witness for C10 on a concrete mesh whose `u16` indices form one valid
in-bounds triangle. -/
theorem c10_u16_indices_rejected_witness : mesh_to_collider_shape c10mesh = none :=
  c10_u16_indices_rejected c10mesh [v3zero, v3Y, hcEND] [0, 1, 2] rfl rfl
    (by decide) (by decide)

/-- C2: for every valid swept configuration (`subdivisions ≥ 1`, non-empty
angle ranges) the builder returns a mesh with exactly
`(subdivisions + 1) * (n_segments + 1)` vertices, and every triangle index
it emits is strictly below that vertex count. -/
theorem c2_vertex_index_bounds (cfg : HalfCylinderPath)
    (hsub : 1 ≤ cfg.subdivisions)
    (hy : fpLt cfg.yaw_range.1 cfg.yaw_range.2 = true)
    (hp : fpLt cfg.pitch_range.1 cfg.pitch_range.2 = true) :
    ∃ m, Mesh.ofHalfCylinderPath cfg = some m
      ∧ meshPositionCount m = (cfg.subdivisions + 1) * (cfg.n_segments + 1)
      ∧ ∀ n ∈ meshIndexList m, n < (cfg.subdivisions + 1) * (cfg.n_segments + 1) := by
  obtain ⟨l, hl, hlen⟩ := wormTakeN_some cfg.yaw_range.1 cfg.yaw_range.2
    cfg.pitch_range.1 cfg.pitch_range.2 hy hp (cfg.n_segments + 1) (seedFromU64 cfg.seed)
  have hl2 : wormTakeN (cfg.n_segments + 1)
      ⟨seedFromU64 cfg.seed, cfg.yaw_range, cfg.pitch_range⟩ = some l := hl
  unfold Mesh.ofHalfCylinderPath
  rw [hl2]
  refine ⟨_, rfl, ?_, ?_⟩
  · show (((pathRings cfg.forward cfg.radius cfg.segment_length cfg.subdivisions
        cfg.start l).flatMap id).map Prod.fst).length = _
    rw [List.length_map, pathRings_flat_length, hlen]
    ring
  · show ∀ n ∈ pathIndices cfg.n_segments cfg.subdivisions, _
    exact pathIndices_mem_lt cfg.n_segments cfg.subdivisions

/-- Witness for C2 at a concrete one-segment, one-subdivision
configuration with non-empty ranges. -/
theorem c2_vertex_index_bounds_witness :
    (1 : Nat) ≤ 1 ∧ fpLt (FP.fin 0) (FP.fin 1) = true
    ∧ ∃ m, Mesh.ofHalfCylinderPath
        ⟨v3zero, hcNEGATIVE_Z, .fin (1 / 2), .fin 1, 1, 1, 7, (.fin 0, .fin 1), (.fin 0, .fin 1)⟩
          = some m
      ∧ meshPositionCount m = 4 ∧ ∀ n ∈ meshIndexList m, n < 4 :=
  ⟨by decide, by decide,
   c2_vertex_index_bounds
    ⟨v3zero, hcNEGATIVE_Z, .fin (1 / 2), .fin 1, 1, 1, 7, (.fin 0, .fin 1), (.fin 0, .fin 1)⟩
    (by decide) (by decide) (by decide)⟩

/-- C5 counterexample: at a concrete configuration with `subdivisions = 0`
(and otherwise valid parameters) mesh construction does not fail with an
invalid-configuration error; it succeeds and returns a mesh whose positions
contain NaN — the claim is false on this code. -/
theorem c5_counterexample : succeedsWithNaN (Mesh.ofHalfCylinderPath c5cfg) = true := by
  obtain ⟨m, hm, hnan⟩ := pathMesh_nan_of_zero_subdivisions c5cfg rfl (by decide) (by decide)
  rw [hm]
  exact hnan

/-- C5 amended: with `subdivisions = 0` (and non-empty angle ranges) mesh
construction does not fail — the builder is total and returns a mesh — and
the per-vertex angle step `0.0 / 0.0` makes the mesh's positions NaN. -/
theorem c5_zero_subdivisions_nan_mesh (cfg : HalfCylinderPath)
    (hsub : cfg.subdivisions = 0)
    (hy : fpLt cfg.yaw_range.1 cfg.yaw_range.2 = true)
    (hp : fpLt cfg.pitch_range.1 cfg.pitch_range.2 = true) :
    ∃ m, Mesh.ofHalfCylinderPath cfg = some m ∧ meshPositionsHaveNaN m = true :=
  pathMesh_nan_of_zero_subdivisions cfg hsub hy hp

/-- Witness for the amended C5 at the concrete zero-subdivision
configuration. -/
theorem c5_zero_subdivisions_nan_mesh_witness :
    ∃ m, Mesh.ofHalfCylinderPath c5cfg = some m ∧ meshPositionsHaveNaN m = true :=
  c5_zero_subdivisions_nan_mesh c5cfg rfl (by decide) (by decide)

/-- C7: with non-empty ranges, every call to `next` yields a value (the
sequence never terminates), and the value is
`Quat::from_rotation_y(yaw) * Quat::from_rotation_x(pitch)`; moreover, in
exact arithmetic that quaternion composition equals the rotation by the
pitch about the yaw-rotated lateral axis composed after the yaw rotation
(intrinsic yaw-then-pitch), for any half-angle sine/cosine pair of the yaw
on the unit circle. -/
theorem c7_yaw_then_pitch :
    (∀ it : WormPathIterator,
      fpLt it.yaw_range.1 it.yaw_range.2 = true →
      fpLt it.pitch_range.1 it.pitch_range.2 = true →
      ∃ yaw pitch rng2,
        wormNext it = some (quatMul (quatFromRotationY yaw) (quatFromRotationX pitch),
          ⟨rng2, it.yaw_range, it.pitch_range⟩))
    ∧ (∀ sa ca sb cb : ℚ, sa * sa + ca * ca = 1 →
      quatMul (⟨0, sa, 0, ca⟩ : Q4 ℚ) (⟨sb, 0, 0, cb⟩ : Q4 ℚ) =
        quatMul (quatAxisHalf (quatMulVec3 (⟨0, sa, 0, ca⟩ : Q4 ℚ) ⟨1, 0, 0⟩) sb cb)
          (⟨0, sa, 0, ca⟩ : Q4 ℚ)) := by
  constructor
  · exact fun it hy hp => wormNext_some it hy hp
  · intro sa ca sb cb h
    simp only [quatMul, quatAxisHalf, quatMulVec3, v3dot, v3cross, v3scale, v3add,
      Q4.mk.injEq]
    refine ⟨?_, ?_, ?_, ?_⟩
    · linear_combination (-(ca * sb)) * h
    · ring
    · linear_combination (sa * sb) * h
    · ring

/-- Witness for C7: a concrete iterator with non-empty ranges, and the
quaternion identity at the concrete unit-circle point `(0, 1)` with pitch
half-angle values `(1, 0)`. -/
theorem c7_yaw_then_pitch_witness :
    (∃ yaw pitch rng2,
      wormNext ⟨seedFromU64 1, (.fin 0, .fin 1), (.fin 0, .fin 1)⟩
        = some (quatMul (quatFromRotationY yaw) (quatFromRotationX pitch),
            ⟨rng2, (.fin 0, .fin 1), (.fin 0, .fin 1)⟩))
    ∧ quatMul (⟨0, 0, 0, 1⟩ : Q4 ℚ) (⟨1, 0, 0, 0⟩ : Q4 ℚ) =
        quatMul (quatAxisHalf (quatMulVec3 (⟨0, 0, 0, 1⟩ : Q4 ℚ) ⟨1, 0, 0⟩) 1 0)
          (⟨0, 0, 0, 1⟩ : Q4 ℚ) :=
  ⟨c7_yaw_then_pitch.1 ⟨seedFromU64 1, (.fin 0, .fin 1), (.fin 0, .fin 1)⟩
      (by decide) (by decide),
   c7_yaw_then_pitch.2 0 1 1 0 (by norm_num)⟩

/-- C8 counterexample: a concrete configuration with zero subdivisions and
an empty yaw range is not rejected at construction — the record is built
and stores the invalid values verbatim (no clamping, no error) — and the
failure instead surfaces when the mesh build makes its first random draw. -/
theorem c8_counterexample :
    c8cfg.subdivisions = 0 ∧ c8cfg.yaw_range = (.fin 1, .fin 0)
      ∧ fpLt c8cfg.yaw_range.1 c8cfg.yaw_range.2 = false
      ∧ Mesh.ofHalfCylinderPath c8cfg = none :=
  ⟨rfl, rfl, by decide, pathMesh_none_of_empty_yaw c8cfg (by decide)⟩

/-- C8 amended: construction performs no validation at all — any
subdivision count and any angle ranges are accepted and stored verbatim
(never clamped, never rejected); an empty yaw range instead makes the mesh
build fail at its first random draw. -/
theorem c8_no_construction_validation (p f : V3 FP) (r sl : FP)
    (ns sub seed : Nat) (yr pr : FP × FP) :
    (HalfCylinderPath.mk p f r sl ns sub seed yr pr).subdivisions = sub
    ∧ (HalfCylinderPath.mk p f r sl ns sub seed yr pr).yaw_range = yr
    ∧ (HalfCylinderPath.mk p f r sl ns sub seed yr pr).pitch_range = pr
    ∧ (fpLt yr.1 yr.2 = false →
        Mesh.ofHalfCylinderPath (HalfCylinderPath.mk p f r sl ns sub seed yr pr) = none) :=
  ⟨rfl, rfl, rfl, fun h => pathMesh_none_of_empty_yaw _ h⟩

/-- Witness for the amended C8 at a concrete invalid configuration. -/
theorem c8_no_construction_validation_witness :
    fpLt (FP.fin 1) (FP.fin 0) = false
    ∧ (HalfCylinderPath.mk v3zero hcNEGATIVE_Z (.fin 1) (.fin 1) 3 0 9
        (.fin 1, .fin 0) (.fin 0, .fin 1)).subdivisions = 0
    ∧ Mesh.ofHalfCylinderPath (HalfCylinderPath.mk v3zero hcNEGATIVE_Z (.fin 1) (.fin 1)
        3 0 9 (.fin 1, .fin 0) (.fin 0, .fin 1)) = none :=
  ⟨by decide,
   (c8_no_construction_validation v3zero hcNEGATIVE_Z (.fin 1) (.fin 1) 3 0 9
      (.fin 1, .fin 0) (.fin 0, .fin 1)).1,
   (c8_no_construction_validation v3zero hcNEGATIVE_Z (.fin 1) (.fin 1) 3 0 9
      (.fin 1, .fin 0) (.fin 0, .fin 1)).2.2.2 (by decide)⟩
